import Mathlib

/-!
Verification of the XC proxy-endpoint pipeline (src/main.py) against its
natural-language specification.

Python strings are modelled as `List Char`; Python's unbounded `int` as `ℤ`;
wall-clock durations as `ℚ`; fallible operations as `Option`.  Each definition
embeds the Python construct named in its doc comment.
-/

/-- Model of Python's `str.split(sep)` locating machinery: returns the text
before the first occurrence of (non-empty) `sep` and the text after it,
or `none` when `sep` does not occur. -/
def splitFirst (sep : List Char) : List Char → Option (List Char × List Char)
  | [] => none
  | c :: rest =>
    if sep.isPrefixOf (c :: rest) then some ([], (c :: rest).drop sep.length)
    else
      match splitFirst sep rest with
      | none => none
      | some (b, a) => some (c :: b, a)

/-- Fuel-indexed worker for `pySplit`; fuel `s.length` always suffices. -/
def pySplitAux (sep : List Char) : Nat → List Char → List (List Char)
  | 0, s => [s]
  | fuel + 1, s =>
    match splitFirst sep s with
    | none => [s]
    | some (b, a) => b :: pySplitAux sep fuel a

/-- Model of Python's `str.split(sep)` for a non-empty separator: splits on
every non-overlapping occurrence of `sep`, keeping empty segments. -/
def pySplit (sep s : List Char) : List (List Char) :=
  if sep = [] then [s] else pySplitAux sep s.length s

/-- Model of Python's `sep in s` substring test. -/
def pyContains (sep s : List Char) : Bool :=
  (splitFirst sep s).isSome

/-- Model of Python's `s.rsplit(sep, 1)` for a single-character separator:
at most one split, at the last occurrence of `sep`. -/
def pyRsplit1 (sep : Char) (s : List Char) : List (List Char) :=
  if sep ∈ s then
    [((s.reverse.dropWhile (· ≠ sep)).tail).reverse,
     (s.reverse.takeWhile (· ≠ sep)).reverse]
  else [s]

/-- Model of Python's `s.strip(chars)`: removes all leading and trailing
characters belonging to `chars`. -/
def pyStrip (chars s : List Char) : List Char :=
  ((s.dropWhile (· ∈ chars)).reverse.dropWhile (· ∈ chars)).reverse

/-- Decimal digit list to a natural number; `none` when the list is empty or
holds a non-digit. -/
def digitsToNat (ds : List Char) : Option Nat :=
  if ds ≠ [] ∧ ds.all (·.isDigit) then
    some (ds.foldl (fun n c => 10 * n + (c.toNat - 48)) 0)
  else none

/-- Model of Python's `int(s)` on a decimal string: surrounding whitespace is
ignored, an optional single `+`/`-` sign precedes the digits; any other shape
raises `ValueError`, modelled as `none`.  (Underscore digit grouping, a Python
nicety irrelevant to the descriptors at hand, is not modelled.) -/
def pyInt (s : List Char) : Option Int :=
  let t := ((s.dropWhile (·.isWhitespace)).reverse.dropWhile (·.isWhitespace)).reverse
  match t with
  | '+' :: ds => (digitsToNat ds).map (fun n => (n : Int))
  | '-' :: ds => (digitsToNat ds).map (fun n => -(n : Int))
  | ds => (digitsToNat ds).map (fun n => (n : Int))

/-- The result of the host/port extraction inside `V2RayPingTester.test_single`
(spec: ParsedTarget).  The port is Python's unbounded `int`. -/
structure ParsedTarget where
  host : List Char
  port : Int
deriving DecidableEq, Repr

/-- `config.split('://')[1]` (main.py line 77). -/
def uriPart (config : List Char) : List Char :=
  (pySplit "://".data config).getD 1 []

/-- `uri_part.split('#')[0].split('?')[0]` (main.py line 78). -/
def hostPart (config : List Char) : List Char :=
  (pySplit "?".data ((pySplit "#".data (uriPart config)).getD 0 [])).getD 0 []

/-- `host_part.split('@')[1] if '@' in host_part else host_part`
(main.py lines 80-84). -/
def hostPortStr (config : List Char) : List Char :=
  if pyContains "@".data (hostPart config) then
    (pySplit "@".data (hostPart config)).getD 1 []
  else hostPart config

/-- `host_port_str.rsplit(':', 1)[0].strip("[]")` (main.py line 87). -/
def hostOf (config : List Char) : List Char :=
  pyStrip "[]".data ((pyRsplit1 ':' (hostPortStr config)).getD 0 [])

/-- `host_port_str.rsplit(':', 1)[1]` (main.py line 88), the raw port text. -/
def portStrOf (config : List Char) : List Char :=
  (pyRsplit1 ':' (hostPortStr config)).getD 1 []

/-- The parsing portion of `V2RayPingTester.test_single` (main.py lines
76-91): extracts host and port from a descriptor, `none` on the rejection
paths (`"://" not in config`, or `int(...)` raising `ValueError`, which the
enclosing `except` turns into `return None`). -/
def test_single_parse (config : List Char) : Option ParsedTarget :=
  if pyContains "://".data config then
    if pyContains ":".data (hostPortStr config) then
      match pyInt (portStrOf config) with
      | none => none
      | some p => some ⟨hostOf config, p⟩
    else some ⟨hostPortStr config, 443⟩
  else none

/-- The host/port extraction that `test_single` applies to the credential-free
authority segment: split on the last `:`, strip `[`/`]` from the host, parse
the port (443 when no `:` is present). -/
def segHostPort (seg : List Char) : Option ParsedTarget :=
  if pyContains ":".data seg then
    match pyInt ((pyRsplit1 ':' seg).getD 1 []) with
    | none => none
    | some p => some ⟨pyStrip "[]".data ((pyRsplit1 ':' seg).getD 0 []), p⟩
  else some ⟨seg, 443⟩

/-- The authority segment after the LAST `@`, as claim C1 words it. -/
def afterLastAt (l : List Char) : List Char :=
  (l.reverse.takeWhile (· ≠ '@')).reverse

/-- The authority segment after the FIRST `@` (up to the next `@` or the end),
which is what `host_part.split('@')[1]` actually selects. -/
def afterFirstAt (l : List Char) : List Char :=
  ((l.dropWhile (· ≠ '@')).tail).takeWhile (· ≠ '@')

/-- Truncation toward zero of a rational: the behaviour of Python's `int()`
applied to a non-integral number. -/
def truncQ (q : ℚ) : ℤ := q.num.tdiv q.den

/-- `int((time.time() - start_time) * 1000)` (main.py line 94): the elapsed
connect time `t` in seconds (modelled as an exact rational), scaled to
milliseconds and truncated by `int()`. -/
def pingMs (t : ℚ) : ℤ := truncQ (t * 1000)

/-- The successful-probe record built in `test_single` (main.py line 95):
`{'config': config, 'ping': ping_ms, 'host': host}` (spec: ProbeResult). -/
structure ProbeResult where
  config : List Char
  ping : ℤ
  host : List Char
deriving DecidableEq, Repr

/-- The ProbeResult `test_single` returns for a connect that succeeded after
`elapsed` seconds. -/
def mkProbeResult (config host : List Char) (elapsed : ℚ) : ProbeResult :=
  ⟨config, pingMs elapsed, host⟩

/-- `sorted(reachable_configs, key=lambda x: x['ping'])` (main.py line 116):
Python's `sorted` is a stable ascending sort by the given key, modelled by
insertion sort (any two stable sorts of the same key order agree). -/
def schedulerSort (collected : List ProbeResult) : List ProbeResult :=
  List.insertionSort (fun a b => a.ping ≤ b.ping) collected

/-- Python `str.upper()` restricted to the ASCII letters appearing in ISO
country codes. -/
def pyUpper (s : List Char) : List Char := s.map Char.toUpper

/-- `"".join(chr(ord(c) + 127397) for c in country_code.upper())`
(main.py line 125): each letter shifted to its regional-indicator symbol. -/
def flagOf (cc : List Char) : List Char :=
  (pyUpper cc).map (fun c => Char.ofNat (c.toNat + 127397))

/-- `get_country_and_flag` (main.py lines 118-130).  `geo = none` models an
absent GeoLite2 database (the reader is `None`); `db ip = none` models
`AddressNotFoundError`/`ValueError`; `db ip = some none` a response whose
`iso_code` is `None`; `db ip = some (some cc)` a country code `cc`.  The
Python truthiness tests `if not ip_address or not geo_reader` and
`if country_code` become emptiness/`none` tests. -/
def get_country_and_flag (ip : List Char)
    (geo : Option (List Char → Option (Option (List Char)))) :
    List Char × List Char :=
  if ip.isEmpty || geo.isNone then ("Unknown".data, "🌐".data)
  else
    match geo with
    | none => ("Unknown".data, "🌐".data)
    | some db =>
      match db ip with
      | none => ("Unknown".data, "🌐".data)
      | some none => ("Unknown".data, "🌐".data)
      | some (some cc) =>
        if cc ≠ [] then (cc, flagOf cc) else ("Unknown".data, "🌐".data)

/-- The per-result tagging in `main` (lines 149-154): resolve the host via
`socket.gethostbyname` (modelled by `resolve`; `none` is `gaierror`); on
resolution failure the tag is `("Unk.", "🌐")`, otherwise
`get_country_and_flag` on the resolved IP. -/
def tagInMain (resolve : List Char → Option (List Char))
    (geo : Option (List Char → Option (Option (List Char))))
    (host : List Char) : List Char × List Char :=
  match resolve host with
  | none => ("Unk.".data, "🌐".data)
  | some ip => get_country_and_flag ip geo

/-- Python's `f"{i:03d}"`: decimal digits left-padded with `0` to width 3. -/
def fmt03 (i : ℕ) : List Char :=
  List.replicate (3 - (Nat.toDigits 10 i).length) '0' ++ Nat.toDigits 10 i

/-- UTF-8 encoding of one code point (Python `str.encode()` per character). -/
def utf8Char (c : Char) : List ℕ :=
  if c.toNat < 128 then [c.toNat]
  else if c.toNat < 2048 then [192 + c.toNat / 64, 128 + c.toNat % 64]
  else if c.toNat < 65536 then
    [224 + c.toNat / 4096, 128 + c.toNat / 64 % 64, 128 + c.toNat % 64]
  else
    [240 + c.toNat / 262144, 128 + c.toNat / 4096 % 64,
     128 + c.toNat / 64 % 64, 128 + c.toNat % 64]

/-- UTF-8 encoding of a string (Python `str.encode()`), as a byte list. -/
def utf8Encode (s : List Char) : List ℕ := (s.map utf8Char).flatten

/-- The hexadecimal digit characters used by percent-encoding. -/
def hexDigit (n : ℕ) : Char := "0123456789ABCDEF".data.getD n '0'

/-- Bytes `urllib.parse.quote` leaves unescaped with its default
`safe='/'`: ASCII alphanumerics, `_.-~`, and `/`. -/
def isSafeByte (b : ℕ) : Bool :=
  (65 ≤ b && b ≤ 90) || (97 ≤ b && b ≤ 122) || (48 ≤ b && b ≤ 57) ||
    b == 45 || b == 46 || b == 95 || b == 126 || b == 47

/-- Percent-encoding of a single byte. -/
def quoteByte (b : ℕ) : List Char :=
  if isSafeByte b then [Char.ofNat b]
  else ['%', hexDigit (b / 16), hexDigit (b % 16)]

/-- `urllib.parse.quote(s)` (main.py line 161): UTF-8 encode, keep safe
bytes, percent-escape the rest with uppercase hex. -/
def pyQuote (s : List Char) : List Char :=
  (utf8Encode s).flatMap quoteByte

/-- The display-name fragment `f"{flag} {country} #{i:03d} |{brand} {emoji}"`
(main.py line 159). -/
def mkDisplayName (flag country : List Char) (rank : ℕ)
    (brand emoji : List Char) : List Char :=
  flag ++ " ".data ++ country ++ " #".data ++ fmt03 rank ++
    " |".data ++ brand ++ " ".data ++ emoji

/-- One labeled result of the naming loop in `main` (lines 149-165): the
1-based rank, the country key, the rewritten descriptor
(`original_link + '#' + quote(new_name)`), and the protocol key
(`named_config.split("://")[0]`). -/
structure Labeled where
  rank : ℕ
  country : List Char
  named : List Char
  proto : List Char
deriving DecidableEq, Repr

/-- `named_config = f"{original_link}#{quote(new_name)}"` (main.py lines
158-162) for the iteration pair `p = (i, res)`: everything in `res['config']`
before the first `#`, then `#`, then the percent-encoded display name built
from the tag of `res['host']`, the rank `i`, and the `random.choice` draws of
iteration `i` (`brandAt`/`emojiAt` — arbitrary functions, so every possible
random sequence is covered). -/
def namedOf (resolve : List Char → Option (List Char))
    (geo : Option (List Char → Option (Option (List Char))))
    (brandAt emojiAt : ℕ → List Char) (p : ℕ × ProbeResult) : List Char :=
  (pySplit "#".data p.2.config).getD 0 [] ++
    '#' :: pyQuote (mkDisplayName (tagInMain resolve geo p.2.host).2
      (tagInMain resolve geo p.2.host).1 p.1 (brandAt p.1) (emojiAt p.1))

/-- The body of `for i, res in enumerate(final_results, 1)` (main.py lines
149-165) for one `(i, res)` pair: rank, country key, rewritten descriptor,
protocol key. -/
def labelStep (resolve : List Char → Option (List Char))
    (geo : Option (List Char → Option (Option (List Char))))
    (brandAt emojiAt : ℕ → List Char) (p : ℕ × ProbeResult) : Labeled :=
  ⟨p.1, (tagInMain resolve geo p.2.host).1,
   namedOf resolve geo brandAt emojiAt p,
   (pySplit "://".data (namedOf resolve geo brandAt emojiAt p)).getD 0 []⟩

/-- All labeled results of the naming loop, in latency order. -/
def labeledResults (resolve : List Char → Option (List Char))
    (geo : Option (List Char → Option (Option (List Char))))
    (brandAt emojiAt : ℕ → List Char) (final_results : List ProbeResult) :
    List Labeled :=
  (final_results.enumFrom 1).map (labelStep resolve geo brandAt emojiAt)

/-- `all_final_links = [res['config'] for res in final_results]`
(main.py line 187) after the naming loop rewrote each `res['config']`. -/
def allFinalLinks (resolve : List Char → Option (List Char))
    (geo : Option (List Char → Option (Option (List Char))))
    (brandAt emojiAt : ℕ → List Char) (final_results : List ProbeResult) :
    List (List Char) :=
  (labeledResults resolve geo brandAt emojiAt final_results).map (fun L => L.named)

/-- `defaultdict(list)` append: add `v` under key `k`, appending to the
existing entry or creating a new key at the end. -/
def addToGroup {K V : Type} [DecidableEq K] (g : List (K × List V)) (k : K)
    (v : V) : List (K × List V) :=
  match g with
  | [] => [(k, [v])]
  | (k', vs) :: rest =>
    if k' = k then (k', vs ++ [v]) :: rest else (k', vs) :: addToGroup rest k v

/-- Folding a key/value sequence into a `defaultdict(list)`: keys in first
appearance order, values per key in sequence order. -/
def assocGroup {K V : Type} [DecidableEq K] (l : List (K × V)) :
    List (K × List V) :=
  l.foldl (fun g p => addToGroup g p.1 p.2) []

/-- `by_country` (main.py lines 147, 163): rewritten descriptors grouped by
country key. -/
def byCountry (resolve : List Char → Option (List Char))
    (geo : Option (List Char → Option (Option (List Char))))
    (brandAt emojiAt : ℕ → List Char) (final_results : List ProbeResult) :
    List (List Char × List (List Char)) :=
  assocGroup ((labeledResults resolve geo brandAt emojiAt final_results).map
    (fun L => (L.country, L.named)))

/-- `by_protocol` (main.py lines 148, 165): rewritten descriptors grouped by
the scheme preceding `://`. -/
def byProtocol (resolve : List Char → Option (List Char))
    (geo : Option (List Char → Option (Option (List Char))))
    (brandAt emojiAt : ℕ → List Char) (final_results : List ProbeResult) :
    List (List Char × List (List Char)) :=
  assocGroup ((labeledResults resolve geo brandAt emojiAt final_results).map
    (fun L => (L.proto, L.named)))

/-- `"\n".join(configs)` (main.py lines 178, 183, 190, 191). -/
def joinNL (links : List (List Char)) : List Char :=
  List.intercalate ['\n'] links

/-- The base64 alphabet of `base64.b64encode`. -/
def b64Alphabet : List Char :=
  "ABCDEFGHIJKLMNOPQRSTUVWXYZabcdefghijklmnopqrstuvwxyz0123456789+/".data

/-- Sextet value to base64 character. -/
def enc6 (n : ℕ) : Char := b64Alphabet.getD n 'A'

/-- Base64 character to sextet value. -/
def dec6 (c : Char) : ℕ := b64Alphabet.indexOf c

/-- `base64.b64encode` on a byte list: 3-byte groups to 4 characters, with
`=` padding for a 1- or 2-byte tail. -/
def b64e : List ℕ → List Char
  | [] => []
  | [a] => [enc6 (a / 4), enc6 (a % 4 * 16), '=', '=']
  | [a, b] => [enc6 (a / 4), enc6 (a % 4 * 16 + b / 16), enc6 (b % 16 * 4), '=']
  | a :: b :: c :: rest =>
    enc6 (a / 4) :: enc6 (a % 4 * 16 + b / 16) :: enc6 (b % 16 * 4 + c / 64) ::
      enc6 (c % 64) :: b64e rest

/-- `base64.b64decode` on well-formed base64 text (which `b64e` always
produces): 4 characters back to 1-3 bytes according to the `=` padding. -/
def b64d : List Char → List ℕ
  | c0 :: c1 :: c2 :: c3 :: rest =>
    if c2 = '=' then [dec6 c0 * 4 + dec6 c1 / 16]
    else if c3 = '=' then
      [dec6 c0 * 4 + dec6 c1 / 16, dec6 c1 % 16 * 16 + dec6 c2 / 4]
    else
      (dec6 c0 * 4 + dec6 c1 / 16) :: (dec6 c1 % 16 * 16 + dec6 c2 / 4) ::
        (dec6 c2 % 4 * 64 + dec6 c3) :: b64d rest
  | _ => []

/-- The artefacts `main` persists (or declines to persist): region files
(country key, newline-joined content), protocol files, the full plain list
`v2ray/all_sub.txt`, its base64 copy `base64/all_sub.txt`, and the
`nothing found` terminal message of the `else` branch (main.py line 194). -/
structure MainOutput where
  regionFiles : List (List Char × List Char)
  protocolFiles : List (List Char × List Char)
  allSubFile : Option (List Char)
  base64File : Option (List Char)
  nothingFound : Bool
deriving DecidableEq, Repr

/-- `main` after the scheduler returned `final_results` (main.py lines
142-194): `if final_results:` labels, groups and writes the files, else no
file is written and the `nothing found` message is printed. -/
def mainOutputs (resolve : List Char → Option (List Char))
    (geo : Option (List Char → Option (Option (List Char))))
    (brandAt emojiAt : ℕ → List Char) (final_results : List ProbeResult) :
    MainOutput :=
  if final_results = [] then ⟨[], [], none, none, true⟩
  else
    ⟨(byCountry resolve geo brandAt emojiAt final_results).map
        (fun g => (g.1, joinNL g.2)),
     (byProtocol resolve geo brandAt emojiAt final_results).map
        (fun g => (g.1, joinNL g.2)),
     some (joinNL (allFinalLinks resolve geo brandAt emojiAt final_results)),
     some (b64e (utf8Encode
        (joinNL (allFinalLinks resolve geo brandAt emojiAt final_results)))),
     false⟩

/-- `get_sources` (main.py lines 44-65).  Remote fetching and the optional
transport decode of each body are external collaborators (spec §1);
`lineSets` holds, per successfully fetched source, the lines its body
yielded (`....splitlines()`).  The running set union
(`all_configs.update(...)`) is modelled by `dedup` over the concatenation
(one concrete enumeration of the set), and `list(filter(None, all_configs))`
keeps the truthy — non-empty — strings. -/
def get_sources (lineSets : List (List (List Char))) : List (List Char) :=
  (lineSets.flatten.dedup).filter (fun s => !s.isEmpty)

/-- The rewritten descriptor as the spec words it (C6): everything before any
existing `#` fragment, then `#`, then the percent-encoded display name of the
exact form `<flag> <countryCode> #<rank zero-padded to 3 digits>
|<brand> <emoji>`. -/
def renameSpec (descriptor flag country : List Char) (rank : ℕ)
    (brand emoji : List Char) : List Char :=
  descriptor.takeWhile (· ≠ '#') ++
    '#' :: pyQuote (mkDisplayName flag country rank brand emoji)

/-- The values the grouping fold collects for a key: the second components of
the pairs carrying that key, in sequence order. -/
def valuesFor {K V : Type} [DecidableEq K] (k : K) (l : List (K × V)) :
    List V :=
  (l.filter (fun p => decide (p.1 = k))).map Prod.snd

example : test_single_parse "vmess://h:80".data = some ⟨"h".data, 80⟩ := by decide

example : test_single_parse "nosep".data = none := by decide

example : test_single_parse "vless://b@[::1]:8443#old".data =
    some ⟨"::1".data, 8443⟩ := by decide

/-- `splitFirst` on a single-character separator finds the first occurrence. -/
theorem splitFirst_singleton (a : Char) (l : List Char) :
    splitFirst [a] l =
      if a ∈ l then some (l.takeWhile (· ≠ a), (l.dropWhile (· ≠ a)).tail)
      else none := by
  induction l with
  | nil => rfl
  | cons c rest ih =>
    by_cases hac : a = c
    · subst hac
      simp [splitFirst, List.isPrefixOf, List.takeWhile, List.dropWhile]
    · have hca : ¬ c = a := fun h => hac h.symm
      have hpre : ([a].isPrefixOf (c :: rest)) = false := by
        simp [List.isPrefixOf]
        exact hac
      by_cases hmem : a ∈ rest
      · simp [splitFirst, hpre, ih, hmem, hac, hca,
          List.takeWhile_cons, List.dropWhile_cons]
      · simp [splitFirst, hpre, ih, hmem, hac, hca]

/-- When `splitFirst` fires, the remainder is strictly shorter. -/
theorem splitFirst_some_length (sep : List Char) (hsep : sep ≠ []) :
    ∀ (s b a : List Char), splitFirst sep s = some (b, a) → a.length < s.length := by
  intro s
  induction s with
  | nil => intro b a h; simp [splitFirst] at h
  | cons c rest ih =>
    intro b a h
    rw [splitFirst] at h
    by_cases hpre : sep.isPrefixOf (c :: rest)
    · simp only [hpre, if_true, Option.some.injEq, Prod.mk.injEq] at h
      have ha : a = (c :: rest).drop sep.length := h.2.symm
      subst ha
      have h1 : 1 ≤ sep.length := by
        cases sep with
        | nil => exact absurd rfl hsep
        | cons x xs => simp
      have h2 := List.length_drop sep.length (c :: rest)
      have h3 : (c :: rest).length = rest.length + 1 := by simp
      omega
    · simp only [hpre, Bool.false_eq_true, if_false] at h
      cases hsf : splitFirst sep rest with
      | none => rw [hsf] at h; exact absurd h (by simp)
      | some p =>
        rw [hsf] at h
        obtain ⟨b', a'⟩ := p
        simp only [Option.some.injEq, Prod.mk.injEq] at h
        have := ih b' a' hsf
        have ha : a = a' := h.2.symm
        subst ha
        simp only [List.length_cons]
        omega

/-- The fuel in `pySplitAux` is irrelevant once it covers the input length. -/
theorem pySplitAux_fuel (sep : List Char) (hsep : sep ≠ []) :
    ∀ (fuel : Nat) (s : List Char), s.length ≤ fuel →
      pySplitAux sep fuel s = pySplitAux sep s.length s := by
  intro fuel
  induction fuel using Nat.strong_induction_on with
  | _ fuel ih =>
    intro s hs
    match fuel with
    | 0 =>
      have : s = [] := List.eq_nil_of_length_eq_zero (Nat.le_zero.mp hs)
      subst this; rfl
    | fuel + 1 =>
      cases hsf : splitFirst sep s with
      | none =>
        simp only [pySplitAux, hsf]
        match hl : s.length with
        | 0 => rfl
        | n + 1 => simp only [pySplitAux, hsf]
      | some p =>
        obtain ⟨b, a⟩ := p
        have halen : a.length < s.length := splitFirst_some_length sep hsep s b a hsf
        have hlen : ∃ n, s.length = n + 1 := ⟨s.length - 1, by omega⟩
        obtain ⟨n, hn⟩ := hlen
        rw [hn]
        simp only [pySplitAux, hsf]
        have h1 : pySplitAux sep fuel a = pySplitAux sep a.length a :=
          ih fuel (Nat.lt_succ_self fuel) a (by omega)
        have h2 : pySplitAux sep n a = pySplitAux sep a.length a :=
          ih n (by omega) a (by omega)
        rw [h1, h2]

/-- One-step unfolding of `pySplit` for a non-empty separator. -/
theorem pySplit_eq (sep s : List Char) (hsep : sep ≠ []) :
    pySplit sep s =
      match splitFirst sep s with
      | none => [s]
      | some (b, a) => b :: pySplit sep a := by
  unfold pySplit
  rw [if_neg hsep]
  cases hsf : splitFirst sep s with
  | none =>
    match hl : s.length with
    | 0 => simp only [pySplitAux, hsf]
    | n + 1 => simp only [pySplitAux, hsf]
  | some p =>
    obtain ⟨b, a⟩ := p
    have halen : a.length < s.length := splitFirst_some_length sep hsep s b a hsf
    have hlen : ∃ n, s.length = n + 1 := ⟨s.length - 1, by omega⟩
    obtain ⟨n, hn⟩ := hlen
    rw [hn]
    simp only [pySplitAux, hsf]
    rw [if_neg hsep]
    rw [pySplitAux_fuel sep hsep n a (by omega)]

/-- The first element of a Python split on a single character is the prefix
before the first occurrence of that character. -/
theorem pySplit_singleton_head (a : Char) (s : List Char) :
    (pySplit [a] s).getD 0 [] = s.takeWhile (· ≠ a) := by
  rw [pySplit_eq [a] s (by simp), splitFirst_singleton]
  by_cases h : a ∈ s
  · simp [h]
  · simp only [h, if_false]
    refine (List.takeWhile_eq_self_iff.mpr (fun x hx => ?_)).symm
    simp only [ne_eq, decide_eq_true_eq]
    exact fun hxa => h (hxa ▸ hx)

/-- The second element of a Python split on a single character, when the
character occurs, is the text strictly between the first occurrence and the
following occurrence (or the end). -/
theorem pySplit_singleton_get1 (a : Char) (s : List Char) (h : a ∈ s) :
    (pySplit [a] s).getD 1 [] = ((s.dropWhile (· ≠ a)).tail).takeWhile (· ≠ a) := by
  rw [pySplit_eq [a] s (by simp), splitFirst_singleton]
  simp only [h, if_true]
  exact pySplit_singleton_head a _

/-- `pyContains` on a single-character separator is list membership. -/
theorem pyContains_singleton (a : Char) (s : List Char) :
    pyContains [a] s = true ↔ a ∈ s := by
  unfold pyContains
  rw [splitFirst_singleton]
  by_cases h : a ∈ s <;> simp [h]

/-- `test_single`'s parse is `segHostPort` applied to `host_port_str`. -/
theorem test_single_parse_eq_seg (config : List Char)
    (h : pyContains "://".data config = true) :
    test_single_parse config = segHostPort (hostPortStr config) := by
  unfold test_single_parse segHostPort hostOf portStrOf
  rw [if_pos h]

/-- C1, as stated, is false: on `vmess://a@b@c:80` the code extracts host `b`
(after the first `@`), not host `c` port `80` (after the last `@`). -/
theorem C1_counterexample :
    pyContains "@".data (hostPart "vmess://a@b@c:80".data) = true ∧
    test_single_parse "vmess://a@b@c:80".data = some ⟨"b".data, 443⟩ ∧
    segHostPort (afterLastAt (hostPart "vmess://a@b@c:80".data)) =
      some ⟨"c".data, 80⟩ ∧
    test_single_parse "vmess://a@b@c:80".data ≠
      segHostPort (afterLastAt (hostPart "vmess://a@b@c:80".data)) := by decide

/-- C1 (amended): for every descriptor whose authority contains credentials,
host and port are extracted from the segment after the FIRST `@` of the
authority (the text strictly between the first `@` and the next `@` or the
end), not after the last `@`. -/
theorem C1_parse_segment_after_first_at (config : List Char)
    (h1 : pyContains "://".data config = true)
    (h2 : pyContains "@".data (hostPart config) = true) :
    test_single_parse config = segHostPort (afterFirstAt (hostPart config)) := by
  rw [test_single_parse_eq_seg config h1]
  have hdata : "@".data = ['@'] := rfl
  have hmem : '@' ∈ hostPart config := by
    rw [hdata] at h2
    exact (pyContains_singleton '@' (hostPart config)).mp h2
  have : hostPortStr config = afterFirstAt (hostPart config) := by
    unfold hostPortStr afterFirstAt
    rw [if_pos h2, hdata]
    exact pySplit_singleton_get1 '@' (hostPart config) hmem
  rw [this]

/-- Witness for C1: the amended statement instantiated on a concrete
double-`@` descriptor. -/
theorem C1_parse_segment_after_first_at_witness :
    test_single_parse "vmess://u@h1:81@h2:82".data =
      segHostPort (afterFirstAt (hostPart "vmess://u@h1:81@h2:82".data)) ∧
    test_single_parse "vmess://u@h1:81@h2:82".data = some ⟨"h1".data, 81⟩ :=
  ⟨C1_parse_segment_after_first_at _ (by decide) (by decide), by decide⟩

/-- C2, as stated, is false: the parser returns a ParsedTarget with empty host
and port 0 on `vmess://:0` — neither the port range nor host non-emptiness is
validated. -/
theorem C2_counterexample :
    test_single_parse "vmess://:0".data = some ⟨[], 0⟩ ∧
    ¬((1 ≤ (0 : Int) ∧ (0 : Int) ≤ 65535) ∧ ([] : List Char) ≠ []) := by decide

/-- C2 (amended): the parser is total — for any input it returns either a
complete ParsedTarget or a rejection, never an error — and it rejects exactly
when the descriptor lacks `://` or the port text fails integer parsing.  The
returned port is NOT checked against `[1, 65535]` and the host may be empty. -/
theorem C2_parser_totality (config : List Char) :
    test_single_parse config = none ↔
      (pyContains "://".data config = false ∨
       (pyContains ":".data (hostPortStr config) = true ∧
        pyInt (portStrOf config) = none)) := by
  unfold test_single_parse
  by_cases h1 : pyContains "://".data config = true
  · rw [if_pos h1]
    by_cases h2 : pyContains ":".data (hostPortStr config) = true
    · rw [if_pos h2]
      cases hp : pyInt (portStrOf config) <;> simp [h1, h2, hp]
    · rw [if_neg h2]
      simp only [Bool.not_eq_true] at h2
      simp [h1, h2]
  · rw [if_neg h1]
    simp only [Bool.not_eq_true] at h1
    simp [h1]

/-- Truncation toward zero agrees with the floor on non-negative rationals. -/
theorem truncQ_eq_floor (q : ℚ) (h : 0 ≤ q) : truncQ q = ⌊q⌋ := by
  unfold truncQ
  rw [Rat.floor_def]
  exact Int.tdiv_eq_ediv (Rat.num_nonneg.mpr h) (by positivity)

/-- C4, as stated, is false: an elapsed time of 1.9 ms is reported as 1 ms
(truncation), where rounding to the nearest millisecond would give 2 ms. -/
theorem C4_counterexample :
    pingMs (19 / 10000) = 1 ∧ round ((19 / 10000 : ℚ) * 1000) = 2 ∧
    pingMs (19 / 10000) ≠ round ((19 / 10000 : ℚ) * 1000) := by
  have h : (19 / 10000 : ℚ) * 1000 = 19 / 10 := by norm_num
  have h1 : pingMs (19 / 10000) = 1 := by
    unfold pingMs
    rw [h, truncQ_eq_floor (19 / 10) (by norm_num)]
    norm_num
  have h2 : round ((19 / 10000 : ℚ) * 1000) = 2 := by
    rw [h, round_eq]
    norm_num
  exact ⟨h1, h2, by rw [h1, h2]; norm_num⟩

/-- C4 (amended): for every successful probe, the latency is the wall-clock
elapsed time of the connect call in milliseconds truncated toward zero
(i.e. its floor, elapsed time being non-negative), not rounded to nearest. -/
theorem C4_latency_truncated (config host : List Char) (elapsed : ℚ)
    (h : 0 ≤ elapsed) :
    (mkProbeResult config host elapsed).ping = ⌊elapsed * 1000⌋ := by
  show pingMs elapsed = ⌊elapsed * 1000⌋
  unfold pingMs
  exact truncQ_eq_floor _ (by positivity)

/-- Witness for C4: a 1.9 ms connect is recorded as 1 ms. -/
theorem C4_latency_truncated_witness :
    (mkProbeResult "c".data "h".data (19 / 10000)).ping = ⌊(19 / 10000 : ℚ) * 1000⌋ ∧
    (⌊(19 / 10000 : ℚ) * 1000⌋ : ℤ) = 1 := by
  refine ⟨C4_latency_truncated "c".data "h".data (19 / 10000) (by norm_num), ?_⟩
  have h : (19 / 10000 : ℚ) * 1000 = 19 / 10 := by norm_num
  rw [h]
  norm_num

/-- C5: in the Probe Scheduler's output, every element's latency is at most
the next element's, for ANY accumulation order of the probe results (the
working collection `collected` ranges over all completion orders). -/
theorem C5_latency_sorted (collected : List ProbeResult) (i : ℕ)
    (h : i + 1 < (schedulerSort collected).length) :
    ((schedulerSort collected).get ⟨i, Nat.lt_of_succ_lt h⟩).ping ≤
      ((schedulerSort collected).get ⟨i + 1, h⟩).ping := by
  have hs : (schedulerSort collected).Sorted (fun a b => a.ping ≤ b.ping) := by
    have ht : IsTrans ProbeResult (fun a b => a.ping ≤ b.ping) :=
      ⟨fun _ _ _ hab hbc => le_trans hab hbc⟩
    have htot : IsTotal ProbeResult (fun a b => a.ping ≤ b.ping) :=
      ⟨fun a b => le_total a.ping b.ping⟩
    exact List.sorted_insertionSort _ collected
  exact hs.rel_get_of_lt (by simp)

/-- Witness for C5: a concrete out-of-order accumulation gets sorted. -/
theorem C5_latency_sorted_witness :
    ((schedulerSort [⟨"a".data, 7, "x".data⟩, ⟨"b".data, 3, "y".data⟩]).get
        ⟨0, by decide⟩).ping ≤
      ((schedulerSort [⟨"a".data, 7, "x".data⟩, ⟨"b".data, 3, "y".data⟩]).get
        ⟨1, by decide⟩).ping :=
  C5_latency_sorted [⟨"a".data, 7, "x".data⟩, ⟨"b".data, 3, "y".data⟩] 0 (by decide)

example : pyQuote " ".data = "%20".data := by decide

example : pyQuote "|#".data = "%7C%23".data := by decide

example : fmt03 1 = "001".data := by decide

example : fmt03 1234 = "1234".data := by decide

example : utf8Encode "🌐".data = [240, 159, 140, 144] := by decide

example : b64e [77] = "TQ==".data := by decide

example : b64e [77, 97] = "TWE=".data := by decide

example : b64e [77, 97, 110] = "TWFu".data := by decide

example : b64d (b64e [77, 97]) = [77, 97] := by decide

example : flagOf "us".data = "🇺🇸".data := by decide

example : get_country_and_flag "1.2.3.4".data
    (some (fun _ => some (some "US".data))) = ("US".data, "🇺🇸".data) := by decide

/-- C3, as stated, is false: on a host that fails name resolution the
assigned country code is the string `"Unk."`, not `"Unknown"` (the flag is
the globe glyph as claimed). -/
theorem C3_counterexample :
    tagInMain (fun _ => none) none "example.invalid".data =
      ("Unk.".data, "🌐".data) ∧
    "Unk.".data ≠ "Unknown".data := by decide

/-- C3 (amended): for every probe result whose host fails name resolution
during geo-classification, the assigned tag is `("Unk.", "🌐")` — the neutral
globe glyph as claimed, but the country code is `"Unk."`, not `"Unknown"`
(`"Unknown"` arises from `get_country_and_flag` for lookup misses and an
absent database, not from resolution failure). -/
theorem C3_resolution_failure_tag (resolve : List Char → Option (List Char))
    (geo : Option (List Char → Option (Option (List Char))))
    (host : List Char) (h : resolve host = none) :
    tagInMain resolve geo host = ("Unk.".data, "🌐".data) := by
  unfold tagInMain
  rw [h]

/-- Witness for C3: a resolver that fails on the concrete host. -/
theorem C3_resolution_failure_tag_witness :
    tagInMain (fun _ => none) none "h".data = ("Unk.".data, "🌐".data) ∧
    ("Unk.".data, "🌐".data).1 ≠ "Unknown".data :=
  ⟨C3_resolution_failure_tag (fun _ => none) none "h".data rfl, by decide⟩

/-- Decoding inverts encoding on each sextet value. -/
theorem dec6_enc6 (n : ℕ) (h : n < 64) : dec6 (enc6 n) = n := by
  have hall : ∀ m, m < 64 → dec6 (enc6 m) = m := by decide
  exact hall n h

/-- No sextet encodes to the padding character. -/
theorem enc6_ne_pad (n : ℕ) (h : n < 64) : enc6 n ≠ '=' := by
  have hall : ∀ m, m < 64 → enc6 m ≠ '=' := by decide
  exact hall n h

/-- Base64 decoding inverts base64 encoding on byte lists. -/
theorem b64_roundtrip : ∀ (bs : List ℕ), (∀ b ∈ bs, b < 256) →
    b64d (b64e bs) = bs := by
  intro bs
  induction bs using b64e.induct with
  | case1 => intro _; rfl
  | case2 a =>
    intro h
    have ha : a < 256 := h a (by simp)
    rw [b64e, b64d, if_pos rfl]
    rw [dec6_enc6 (a / 4) (by omega), dec6_enc6 (a % 4 * 16) (by omega)]
    have : a / 4 * 4 + a % 4 * 16 / 16 = a := by omega
    rw [this]
  | case3 a b =>
    intro h
    have ha : a < 256 := h a (by simp)
    have hb : b < 256 := h b (by simp)
    rw [b64e, b64d, if_neg (enc6_ne_pad (b % 16 * 4) (by omega)), if_pos rfl]
    rw [dec6_enc6 (a / 4) (by omega), dec6_enc6 (a % 4 * 16 + b / 16) (by omega),
      dec6_enc6 (b % 16 * 4) (by omega)]
    have h1 : a / 4 * 4 + (a % 4 * 16 + b / 16) / 16 = a := by omega
    have h2 : (a % 4 * 16 + b / 16) % 16 * 16 + b % 16 * 4 / 4 = b := by omega
    rw [h1, h2]
  | case4 a b c rest ih =>
    intro h
    have ha : a < 256 := h a (by simp)
    have hb : b < 256 := h b (by simp)
    have hc : c < 256 := h c (by simp)
    have hrest : ∀ x ∈ rest, x < 256 := fun x hx => h x (by simp [hx])
    rw [b64e, b64d, if_neg (enc6_ne_pad (b % 16 * 4 + c / 64) (by omega)),
      if_neg (enc6_ne_pad (c % 64) (by omega))]
    rw [dec6_enc6 (a / 4) (by omega), dec6_enc6 (a % 4 * 16 + b / 16) (by omega),
      dec6_enc6 (b % 16 * 4 + c / 64) (by omega), dec6_enc6 (c % 64) (by omega)]
    have h1 : a / 4 * 4 + (a % 4 * 16 + b / 16) / 16 = a := by omega
    have h2 : (a % 4 * 16 + b / 16) % 16 * 16 + (b % 16 * 4 + c / 64) / 4 = b := by
      omega
    have h3 : (b % 16 * 4 + c / 64) % 4 * 64 + c % 64 = c := by omega
    rw [h1, h2, h3, ih hrest]

/-- Every code point is below the Unicode bound. -/
theorem char_toNat_lt_bound (c : Char) : c.toNat < 1114112 := by
  have h := c.valid
  rcases h with h | ⟨h1, h2⟩
  · calc c.toNat < 55296 := h
      _ < 1114112 := by norm_num
  · exact h2

/-- UTF-8 encoding produces bytes. -/
theorem utf8Char_lt (c : Char) : ∀ b ∈ utf8Char c, b < 256 := by
  intro b hb
  have hc := char_toNat_lt_bound c
  unfold utf8Char at hb
  split_ifs at hb <;> simp at hb <;> omega

/-- UTF-8 encoding of a string produces bytes. -/
theorem utf8Encode_lt (s : List Char) : ∀ b ∈ utf8Encode s, b < 256 := by
  intro b hb
  unfold utf8Encode at hb
  rw [List.mem_flatten] at hb
  obtain ⟨l, hl, hbl⟩ := hb
  rw [List.mem_map] at hl
  obtain ⟨c, _, rfl⟩ := hl
  exact utf8Char_lt c b hbl

/-- C7: base64-decoding the content of `base64/all_sub.txt` reproduces
byte-for-byte the (UTF-8 bytes of the) content of `v2ray/all_sub.txt`, for
every run of the pipeline — including the run that writes neither file. -/
theorem C7_transport_roundtrip (resolve : List Char → Option (List Char))
    (geo : Option (List Char → Option (Option (List Char))))
    (brandAt emojiAt : ℕ → List Char) (results : List ProbeResult) :
    ((mainOutputs resolve geo brandAt emojiAt results).base64File).map b64d =
      ((mainOutputs resolve geo brandAt emojiAt results).allSubFile).map
        utf8Encode := by
  unfold mainOutputs
  by_cases h : results = []
  · rw [if_pos h]
    rfl
  · rw [if_neg h]
    simp only [Option.map_some]
    exact congrArg some
      (b64_roundtrip _ (utf8Encode_lt
        (joinNL (allFinalLinks resolve geo brandAt emojiAt results))))

/-- C8: when no descriptor is reachable (every probe returns `None`), the
Probe Scheduler returns the empty sequence rather than an error, and `main`
writes no region, protocol, or aggregate file and terminates normally with
the `nothing found` message.  `collected` is the scheduler's working
collection: any `as_completed`-order permutation of the non-`None` probe
results. -/
theorem C8_total_unreachability (probe : List Char → Option ProbeResult)
    (configs : List (List Char)) (collected : List ProbeResult)
    (resolve : List Char → Option (List Char))
    (geo : Option (List Char → Option (Option (List Char))))
    (brandAt emojiAt : ℕ → List Char)
    (hperm : collected.Perm (configs.filterMap probe))
    (hnone : ∀ c ∈ configs, probe c = none) :
    schedulerSort collected = [] ∧
    mainOutputs resolve geo brandAt emojiAt (schedulerSort collected) =
      ⟨[], [], none, none, true⟩ := by
  have hfm : configs.filterMap probe = [] := by
    rw [List.filterMap_eq_nil_iff]
    exact hnone
  rw [hfm] at hperm
  have hc : collected = [] := hperm.eq_nil
  subst hc
  exact ⟨rfl, rfl⟩

/-- C6: every labeled result's rewritten descriptor is exactly the original
descriptor up to (excluding) any existing `#` fragment, then `#`, then the
percent-encoded display name `<flag> <countryCode> #<rank zero-padded to 3
digits> |<brand> <emoji>` with rank the 1-based position in the
latency-sorted sequence — any original display name is discarded. -/
theorem C6_rewritten_descriptor (resolve : List Char → Option (List Char))
    (geo : Option (List Char → Option (Option (List Char))))
    (brandAt emojiAt : ℕ → List Char) (results : List ProbeResult)
    (j : ℕ) (hj : j < results.length) :
    (allFinalLinks resolve geo brandAt emojiAt results).getD j [] =
      renameSpec (results.getD j ⟨[], 0, []⟩).config
        (tagInMain resolve geo (results.getD j ⟨[], 0, []⟩).host).2
        (tagInMain resolve geo (results.getD j ⟨[], 0, []⟩).host).1
        (j + 1) (brandAt (j + 1)) (emojiAt (j + 1)) := by
  have hres : results[j]? = some results[j] := List.getElem?_eq_getElem hj
  have hgd : results.getD j ⟨[], 0, []⟩ = results[j] := by
    rw [List.getD_eq_getElem?_getD, hres]
    rfl
  unfold allFinalLinks labeledResults
  rw [List.getD_eq_getElem?_getD, List.getElem?_map, List.getElem?_map,
    List.getElem?_enumFrom, hres]
  simp only [Option.map_some', Option.getD_some]
  rw [hgd]
  have hhash : (pySplit "#".data (results[j]).config).getD 0 [] =
      (results[j]).config.takeWhile (· ≠ '#') := by
    have h9 : "#".data = ['#'] := rfl
    rw [h9]
    exact pySplit_singleton_head '#' _
  show namedOf resolve geo brandAt emojiAt (1 + j, results[j]) = _
  unfold namedOf renameSpec
  rw [Nat.add_comm 1 j, hhash]

/-- Witness for C6: a concrete one-result run; the rank is 1 and the old
fragment `#old` of the descriptor is discarded. -/
theorem C6_rewritten_descriptor_witness :
    (allFinalLinks (fun _ => none) none (fun _ => "B".data) (fun _ => "E".data)
        [⟨"vmess://a#old".data, 5, "h".data⟩]).getD 0 [] =
      renameSpec (([⟨"vmess://a#old".data, 5, "h".data⟩] :
            List ProbeResult).getD 0 ⟨[], 0, []⟩).config
        (tagInMain (fun _ => none) none
          (([⟨"vmess://a#old".data, 5, "h".data⟩] :
            List ProbeResult).getD 0 ⟨[], 0, []⟩).host).2
        (tagInMain (fun _ => none) none
          (([⟨"vmess://a#old".data, 5, "h".data⟩] :
            List ProbeResult).getD 0 ⟨[], 0, []⟩).host).1
        1 "B".data "E".data ∧
    (allFinalLinks (fun _ => none) none (fun _ => "B".data) (fun _ => "E".data)
        [⟨"vmess://a#old".data, 5, "h".data⟩]).getD 0 [] =
      ("vmess://a#".data ++
        pyQuote (mkDisplayName "🌐".data "Unk.".data 1 "B".data "E".data)) :=
  ⟨C6_rewritten_descriptor (fun _ => none) none (fun _ => "B".data)
      (fun _ => "E".data) [⟨"vmess://a#old".data, 5, "h".data⟩] 0 (by decide),
   by decide⟩

/-- Witness for C8: the spec's own scenario — two descriptors, both
unreachable. -/
theorem C8_total_unreachability_witness :
    schedulerSort [] = [] ∧
    mainOutputs (fun _ => none) none (fun _ => []) (fun _ => [])
      (schedulerSort []) = ⟨[], [], none, none, true⟩ :=
  C8_total_unreachability (fun _ => none)
    ["vmess://a@1.2.3.4:443".data, "vless://b@[::1]:8443#old".data] []
    (fun _ => none) none (fun _ => []) (fun _ => [])
    (by decide) (fun c _ => rfl)

/-- Looking up the key just added to a group. -/
theorem addToGroup_lookup_self {K V : Type} [DecidableEq K]
    (g : List (K × List V)) (k : K) (v : V) :
    List.lookup k (addToGroup g k v) =
      some ((List.lookup k g).getD [] ++ [v]) := by
  induction g with
  | nil => simp [addToGroup, List.lookup]
  | cons p rest ih =>
    obtain ⟨k', vs⟩ := p
    by_cases h : k' = k
    · subst h
      simp [addToGroup, List.lookup]
    · have hbeq : (k == k') = false := by
        simp only [beq_eq_false_iff_ne, ne_eq]
        exact fun e => h e.symm
      simp [addToGroup, h, List.lookup, hbeq, ih]

/-- Adding under one key does not change lookups of other keys. -/
theorem addToGroup_lookup_ne {K V : Type} [DecidableEq K]
    (g : List (K × List V)) (k k' : K) (v : V) (h : k' ≠ k) :
    List.lookup k' (addToGroup g k v) = List.lookup k' g := by
  induction g with
  | nil =>
    have hbeq : (k' == k) = false := by simp [h]
    simp [addToGroup, List.lookup, hbeq]
  | cons p rest ih =>
    obtain ⟨k1, vs⟩ := p
    by_cases h1 : k1 = k
    · subst h1
      have hbeq : (k' == k1) = false := by simp [h]
      simp [addToGroup, List.lookup, hbeq]
    · by_cases h2 : k' = k1
      · subst h2
        simp [addToGroup, h1, List.lookup]
      · have hbeq : (k' == k1) = false := by simp [h2]
        simp [addToGroup, h1, List.lookup, hbeq, ih]

/-- Full characterisation of the grouping fold: the values stored under a key
are exactly the values the sequence carries for that key, in order. -/
theorem foldl_addToGroup_lookup {K V : Type} [DecidableEq K] :
    ∀ (l : List (K × V)) (g : List (K × List V)) (k : K),
      List.lookup k (l.foldl (fun g p => addToGroup g p.1 p.2) g) =
        match List.lookup k g, valuesFor k l with
        | some vs0, vl => some (vs0 ++ vl)
        | none, [] => none
        | none, v :: vl => some (v :: vl) := by
  intro l
  induction l with
  | nil =>
    intro g k
    have hv : valuesFor k ([] : List (K × V)) = [] := rfl
    rw [hv]
    cases h : List.lookup k g with
    | none => rw [List.foldl_nil, h]
    | some vs0 =>
      rw [List.foldl_nil, h]
      simp
  | cons p rest ih =>
    intro g k
    obtain ⟨k1, v⟩ := p
    rw [List.foldl_cons, ih (addToGroup g k1 v) k]
    by_cases hk : k1 = k
    · subst hk
      rw [addToGroup_lookup_self]
      have hv : valuesFor k1 ((k1, v) :: rest) = v :: valuesFor k1 rest := by
        simp [valuesFor, List.filter_cons]
      rw [hv]
      cases hg : List.lookup k1 g with
      | none => simp
      | some vs0 => simp
    · have hb : (decide ((k1, v).1 = k)) = false := by simp [hk]
      rw [addToGroup_lookup_ne g k1 k v (fun e => hk e.symm)]
      have hv : valuesFor k ((k1, v) :: rest) = valuesFor k rest := by
        simp [valuesFor, List.filter_cons, hb]
      rw [hv]

/-- Lookup in a fresh grouping. -/
theorem assocGroup_lookup {K V : Type} [DecidableEq K] (l : List (K × V))
    (k : K) :
    List.lookup k (assocGroup l) =
      match valuesFor k l with
      | [] => none
      | v :: vl => some (v :: vl) := by
  unfold assocGroup
  rw [foldl_addToGroup_lookup l [] k]
  cases valuesFor k l <;> rfl

/-- Keys after an insertion: unchanged, or the new key appended. -/
theorem addToGroup_keys {K V : Type} [DecidableEq K]
    (g : List (K × List V)) (k : K) (v : V) :
    (addToGroup g k v).map Prod.fst =
      if k ∈ g.map Prod.fst then g.map Prod.fst
      else g.map Prod.fst ++ [k] := by
  induction g with
  | nil => simp [addToGroup]
  | cons p rest ih =>
    obtain ⟨k', vs⟩ := p
    by_cases h : k' = k
    · subst h
      simp [addToGroup]
    · have hne : ¬ k = k' := fun e => h e.symm
      by_cases hm : k ∈ rest.map Prod.fst
      · simp [addToGroup, h, ih, hm, hne]
      · simp [addToGroup, h, ih, hm, hne]

/-- Insertion preserves distinctness of the group keys. -/
theorem addToGroup_nodupKeys {K V : Type} [DecidableEq K]
    (g : List (K × List V)) (k : K) (v : V)
    (h : (g.map Prod.fst).Nodup) :
    ((addToGroup g k v).map Prod.fst).Nodup := by
  rw [addToGroup_keys]
  by_cases hm : k ∈ g.map Prod.fst
  · simpa [hm] using h
  · rw [if_neg hm]
    rw [List.nodup_append]
    refine ⟨h, List.nodup_singleton k, ?_⟩
    intro a ha hb
    rw [List.mem_singleton] at hb
    subst hb
    exact hm ha

/-- Group keys of a fresh grouping are distinct. -/
theorem assocGroup_nodupKeys {K V : Type} [DecidableEq K]
    (l : List (K × V)) : ((assocGroup l).map Prod.fst).Nodup := by
  have hgen : ∀ (l : List (K × V)) (g : List (K × List V)),
      (g.map Prod.fst).Nodup →
      ((l.foldl (fun g p => addToGroup g p.1 p.2) g).map Prod.fst).Nodup := by
    intro l
    induction l with
    | nil => intro g h; exact h
    | cons p rest ih =>
      intro g h
      exact ih _ (addToGroup_nodupKeys _ _ _ h)
  exact hgen l [] (by simp)

/-- Membership in an association list with distinct keys determines lookup. -/
theorem lookup_eq_of_mem_of_nodupKeys {K V : Type} [DecidableEq K] :
    ∀ (g : List (K × V)) (k : K) (vs : V), (g.map Prod.fst).Nodup →
      (k, vs) ∈ g → List.lookup k g = some vs := by
  intro g
  induction g with
  | nil => intro k vs _ h; simp at h
  | cons p rest ih =>
    intro k vs hn hm
    obtain ⟨k', vs'⟩ := p
    rcases List.mem_cons.mp hm with he | hr
    · injection he with he1 he2
      subst he1; subst he2
      simp [List.lookup]
    · have hk : k ≠ k' := by
        intro e
        subst e
        have hmem : k ∈ rest.map Prod.fst := by
          have := List.mem_map_of_mem Prod.fst hr
          simpa using this
        have hcons : (k :: rest.map Prod.fst).Nodup := by simpa using hn
        exact absurd hmem (List.nodup_cons.mp hcons).1
      have hbeq : (k == k') = false := by simp [hk]
      have htl : (rest.map Prod.fst).Nodup := by
        have hcons : (k' :: rest.map Prod.fst).Nodup := by simpa using hn
        exact (List.nodup_cons.mp hcons).2
      simp [List.lookup, hbeq]
      exact ih k vs htl hr

/-- The value list a grouping stores under a key is the named-projection of
the key's fibre of the labeled list. -/
theorem group_values (L : List Labeled) (f : Labeled → List Char)
    (k : List Char) (vs : List (List Char))
    (h : (k, vs) ∈ assocGroup (L.map (fun x => (f x, x.named)))) :
    vs = (L.filter (fun x => decide (f x = k))).map (fun x => x.named) := by
  have hlk := lookup_eq_of_mem_of_nodupKeys _ k vs (assocGroup_nodupKeys _) h
  rw [assocGroup_lookup] at hlk
  cases hvl : valuesFor k (L.map (fun x => (f x, x.named))) with
  | nil =>
    rw [hvl] at hlk
    exact absurd hlk (by simp)
  | cons v vl =>
    rw [hvl] at hlk
    have hv : vs = valuesFor k (L.map fun x => (f x, x.named)) := by
      rw [hvl]
      exact (Option.some.inj hlk).symm
    rw [hv]
    unfold valuesFor
    rw [List.filter_map, List.map_map]
    have h1 : (Prod.snd ∘ fun x : Labeled => (f x, x.named)) =
        fun x : Labeled => x.named := rfl
    have h2 : ((fun p : List Char × List Char => decide (p.1 = k)) ∘
        fun x : Labeled => (f x, x.named)) =
        fun x : Labeled => decide (f x = k) := rfl
    rw [h1, h2]

/-- Positions in an enumeration are strictly increasing. -/
theorem enumFrom_pairwise_fst {α : Type} :
    ∀ (n : ℕ) (l : List α),
      (List.enumFrom n l).Pairwise (fun a b => a.1 < b.1) := by
  intro n l
  induction l generalizing n with
  | nil => simp
  | cons x xs ih =>
    rw [List.enumFrom]
    refine List.Pairwise.cons ?_ (ih (n + 1))
    intro y hy
    have := List.le_fst_of_mem_enumFrom hy
    simpa using Nat.lt_of_succ_le this

/-- Ranks of the labeled results are strictly increasing along the list. -/
theorem labeledResults_pairwise_rank (resolve : List Char → Option (List Char))
    (geo : Option (List Char → Option (Option (List Char))))
    (brandAt emojiAt : ℕ → List Char) (results : List ProbeResult) :
    (labeledResults resolve geo brandAt emojiAt results).Pairwise
      (fun a b => a.rank < b.rank) := by
  unfold labeledResults
  rw [List.pairwise_map]
  exact (enumFrom_pairwise_fst 1 results).imp (fun h => h)

/-- C9: every by-country group and every by-protocol group lists its
rewritten descriptors in ascending rank (latency) order, as a subsequence of
the full latency-ordered rewritten-descriptor list: each group is the
named-projection of a rank-increasing sublist of the labeled results. -/
theorem C9_groups_ordered_subsequences
    (resolve : List Char → Option (List Char))
    (geo : Option (List Char → Option (Option (List Char))))
    (brandAt emojiAt : ℕ → List Char) (results : List ProbeResult)
    (k : List Char) (vs : List (List Char))
    (h : (k, vs) ∈ byCountry resolve geo brandAt emojiAt results ∨
         (k, vs) ∈ byProtocol resolve geo brandAt emojiAt results) :
    vs.Sublist (allFinalLinks resolve geo brandAt emojiAt results) ∧
    ∃ sub : List Labeled,
      sub.Sublist (labeledResults resolve geo brandAt emojiAt results) ∧
      sub.Pairwise (fun a b => a.rank < b.rank) ∧
      vs = sub.map (fun L => L.named) := by
  have hmain : ∀ f : Labeled → List Char,
      (k, vs) ∈ assocGroup
        ((labeledResults resolve geo brandAt emojiAt results).map
          (fun x => (f x, x.named))) →
      vs.Sublist (allFinalLinks resolve geo brandAt emojiAt results) ∧
      ∃ sub : List Labeled,
        sub.Sublist (labeledResults resolve geo brandAt emojiAt results) ∧
        sub.Pairwise (fun a b => a.rank < b.rank) ∧
        vs = sub.map (fun L => L.named) := by
    intro f hf
    have hv := group_values _ f k vs hf
    have hsub : ((labeledResults resolve geo brandAt emojiAt results).filter
        (fun x => decide (f x = k))).Sublist
        (labeledResults resolve geo brandAt emojiAt results) :=
      List.filter_sublist _
    refine ⟨?_, _, hsub, ?_, hv⟩
    · rw [hv]
      unfold allFinalLinks
      exact List.Sublist.map _ hsub
    · exact (labeledResults_pairwise_rank resolve geo brandAt emojiAt
        results).sublist hsub
  rcases h with h | h
  · exact hmain (fun L => L.country) h
  · exact hmain (fun L => L.proto) h

/-- Witness for C9: a one-result run; its single by-country group. -/
theorem C9_groups_ordered_subsequences_witness :
    (((byCountry (fun _ => none) none (fun _ => "B".data) (fun _ => "E".data)
        [⟨"vmess://a".data, 5, "h".data⟩]).getD 0 ([], [])).2).Sublist
      (allFinalLinks (fun _ => none) none (fun _ => "B".data)
        (fun _ => "E".data) [⟨"vmess://a".data, 5, "h".data⟩]) ∧
    ∃ sub : List Labeled,
      sub.Sublist (labeledResults (fun _ => none) none (fun _ => "B".data)
        (fun _ => "E".data) [⟨"vmess://a".data, 5, "h".data⟩]) ∧
      sub.Pairwise (fun a b => a.rank < b.rank) ∧
      ((byCountry (fun _ => none) none (fun _ => "B".data) (fun _ => "E".data)
        [⟨"vmess://a".data, 5, "h".data⟩]).getD 0 ([], [])).2 =
        sub.map (fun L => L.named) :=
  C9_groups_ordered_subsequences (fun _ => none) none (fun _ => "B".data)
    (fun _ => "E".data) [⟨"vmess://a".data, 5, "h".data⟩]
    (((byCountry (fun _ => none) none (fun _ => "B".data) (fun _ => "E".data)
        [⟨"vmess://a".data, 5, "h".data⟩]).getD 0 ([], [])).1)
    (((byCountry (fun _ => none) none (fun _ => "B".data) (fun _ => "E".data)
        [⟨"vmess://a".data, 5, "h".data⟩]).getD 0 ([], [])).2)
    (Or.inl (by decide))

/-- C10: the aggregated descriptor list `get_sources` hands to the Probe
Scheduler never contains the empty string — empty lines from every fetched
source body are filtered out before probing. -/
theorem C10_no_empty_descriptor (lineSets : List (List (List Char)))
    (s : List Char) (h : s ∈ get_sources lineSets) : s ≠ [] := by
  unfold get_sources at h
  have hs := (List.mem_filter.mp h).2
  intro he
  subst he
  simp at hs

/-- Witness for C10: two sources whose bodies contain empty lines. -/
theorem C10_no_empty_descriptor_witness :
    "a".data ≠ ([] : List Char) ∧
    get_sources [["a".data, []], [[], "b".data]] = ["a".data, "b".data] :=
  ⟨C10_no_empty_descriptor [["a".data, []], [[], "b".data]] "a".data
      (by decide),
   by decide⟩
